import Mathlib

/-
Verification development for the sec-dw-downloader pipeline
(src/sec-dw-downloader.js): a resumable, cached, batched download pipeline.

The JavaScript source is shallowly embedded as pure Lean functions:
  - the Progress Ledger (class ProgressTracker) becomes a record of lists
    with the exact list operations of markCompleted / markFailed / setPending;
  - the Cache Store (class CacheManager) becomes an association list keyed by
    the sanitized cache key (the regex replace(/[^a-zA-Z0-9]/g, "_") becomes a
    character map);
  - fetchWithRetry becomes a fuel recursion over an "attempt oracle"
    (attempt number -> response or error), returning the result together with
    the list of slept delays and the number of calls made;
  - downloadWarrant becomes a function of an effect oracle environment
    (results of the detail fetch, cache write, file fetch, file write, and the
    cheerio-based extractTermsURL parser, which is external HTML parsing and is
    therefore abstracted as a function parameter), returning the outcome, the
    list of performed effects, and the updated cache;
  - processDownloads' concurrency structure becomes a small-step transition
    system (start a batch, settle one worker, record the settled batch), where
    the record step only fires once the whole batch has settled, exactly
    mirroring "await Promise.all(batch.map(...))" followed by the forEach that
    calls markCompleted / markFailed;
  - main's pipeline (listing via cache, setPending, processDownloads) becomes
    a deterministic two-run model over a fixed remote World; within-batch
    effects are serialized in batch order, which matches the order in which
    Promise.all delivers results to the recording loop.

JSON.parse is a platform builtin; its outcome on the progress file is modelled
as an oracle value: the file is absent, unparsable, or parses to a Json value.
-/

namespace SecDW

/-- Character-level model of the JS regex replace(/[^a-zA-Z0-9]/g, "_") used
both by CacheManager.getCachePath and the safeSymbol fallback filename. -/
def sanitizeChar (c : Char) : Char :=
  if ('a' ≤ c ∧ c ≤ 'z') ∨ ('A' ≤ c ∧ c ≤ 'Z') ∨ ('0' ≤ c ∧ c ≤ '9') then c else '_'

/-- Sanitize a whole string, one character at a time. -/
def sanitizeNonAlnum (s : String) : String := String.mk (s.data.map sanitizeChar)

/-- CacheManager.get: the cache is an association list from sanitized keys to
raw bodies; a lookup returns the most recently written value. -/
def cacheGet (c : List (String × String)) (k : String) : Option String :=
  (c.find? (fun p => p.1 == k)).map (fun p => p.2)

/-- CacheManager.set: fs.writeFileSync overwrites, so the new binding shadows
any older binding of the same key. -/
def cacheSet (c : List (String × String)) (k v : String) : List (String × String) :=
  (k, v) :: c

/-- The structured description extractTermsURL returns on success:
the terms file URL plus issuer, symbol and file date. -/
structure TermsInfo where
  url : String
  issuer : String
  symbol : String
  fileDate : String
deriving DecidableEq

/-- The result object downloadWarrant returns: success flag, transID, and the
fields present on the success or failure branch of the source (absent fields
are none). -/
structure DownloadOutcome where
  success : Bool
  transID : String
  symbol : Option String := none
  issuer : Option String := none
  filename : Option String := none
  fileDate : Option String := none
  fileSize : Option Nat := none
  reason : Option String := none
deriving DecidableEq

/-- The failure branch object of downloadWarrant. -/
def failOutcome (tid reason : String) : DownloadOutcome :=
  { success := false, transID := tid, reason := some reason }

/-- The fallback filename convention of downloadWarrant:
sanitized symbol, fixed "_Terms_" infix, transID, fixed ".pdf" suffix. -/
def fallbackName (symbol tid : String) : String :=
  sanitizeNonAlnum symbol ++ "_Terms_" ++ tid ++ ".pdf"

/-- The success branch object of downloadWarrant. -/
def successOutcome (tid : String) (ti : TermsInfo) (filename : String) (size : Nat) :
    DownloadOutcome :=
  { success := true, transID := tid, symbol := some ti.symbol, issuer := some ti.issuer,
    filename := some filename, fileDate := some ti.fileDate, fileSize := some size }

/-- ProgressTracker.isCompleted on a bare completed list:
completed.some(item => item.transID === transID). -/
def isCompletedL (completed : List DownloadOutcome) (tid : String) : Bool :=
  completed.any (fun r => r.transID == tid)

/-- The ProgressTracker data object: three lists, as persisted in the progress
file. Each mutator persists synchronously, so the state after the call is the
durable state. -/
structure LedgerData where
  completed : List DownloadOutcome
  failed : List DownloadOutcome
  pending : List String
deriving DecidableEq

/-- The empty ledger state used when the progress file is absent or unparsable. -/
def emptyLedger : LedgerData := ⟨[], [], []⟩

/-- ProgressTracker.isCompleted. -/
def isCompleted (d : LedgerData) (tid : String) : Bool :=
  isCompletedL d.completed tid

/-- ProgressTracker.markCompleted: push onto completed, drop the id from
pending. The failed list is untouched. -/
def markCompleted (d : LedgerData) (r : DownloadOutcome) : LedgerData :=
  { d with completed := d.completed ++ [r],
           pending := d.pending.filter (fun id => id != r.transID) }

/-- ProgressTracker.markFailed: push onto failed, drop the id from pending.
The completed list is untouched. -/
def markFailed (d : LedgerData) (r : DownloadOutcome) : LedgerData :=
  { d with failed := d.failed ++ [r],
           pending := d.pending.filter (fun id => id != r.transID) }

/-- ProgressTracker.setPending: pending becomes the listing ids minus the
already-completed ones. -/
def setPending (d : LedgerData) (ids : List String) : LedgerData :=
  { d with pending := ids.filter (fun id => !(isCompleted d id)) }

/-- One ledger API call, for reasoning about arbitrary call sequences
across runs. -/
inductive LedgerOp where
  | setPend (ids : List String)
  | complete (r : DownloadOutcome)
  | fail (r : DownloadOutcome)
deriving DecidableEq

/-- Apply one ledger call. -/
def applyOp (d : LedgerData) : LedgerOp → LedgerData
  | .setPend ids => setPending d ids
  | .complete r => markCompleted d r
  | .fail r => markFailed d r

/-- Apply a sequence of ledger calls in order. -/
def applyOps (d : LedgerData) (ops : List LedgerOp) : LedgerData :=
  ops.foldl applyOp d

/-- The transID an operation marks (completed or failed), if any. -/
def markID : LedgerOp → Option String
  | .setPend _ => none
  | .complete r => some r.transID
  | .fail r => some r.transID

/-- The payload a markCompleted operation appends, if any. -/
def completedPayload : LedgerOp → Option DownloadOutcome
  | .complete r => some r
  | _ => none

/-- The payload a markFailed operation appends, if any. -/
def failedPayload : LedgerOp → Option DownloadOutcome
  | .fail r => some r
  | _ => none

/-- A cross-run call sequence: item "1" is listed and fails in run 1, is
listed again (and, not being completed, re-enters pending) and succeeds in
run 2. -/
def cexOps : List LedgerOp :=
  [.setPend ["1"],
   .fail (failOutcome "1" "Terms file not found"),
   .setPend ["1"],
   .complete (successOutcome "1" ⟨"http://x/f", "Issuer", "SYM", "2026-01-05"⟩ "SYM_Terms_1.pdf" 10)]

/-- A prior ledger state whose completed list holds an id ("2", e.g. from an
earlier run over a different date range) that is not in the current listing. -/
def d4 : LedgerData :=
  { completed := [successOutcome "2" ⟨"http://x/g", "Issuer", "SYM", "2026-01-05"⟩ "SYM_Terms_2.pdf" 10],
    failed := [], pending := [] }

/-- JSON values, as JSON.parse can return them. -/
inductive Json where
  | null
  | bool (b : Bool)
  | num (n : Int)
  | str (s : String)
  | arr (items : List Json)
  | obj (fields : List (String × Json))

/-- The empty ledger state object the constructor falls back to, as a Json
value: completed, failed and pending all empty arrays. -/
def emptyLedgerJson : Json :=
  .obj [("completed", .arr []), ("failed", .arr []), ("pending", .arr [])]

/-- ProgressTracker.load. The file is either absent (none), present but
unparsable (JSON.parse throws: some (.error ())), or present and parsable to a
Json value (some (.ok j)). In the first two cases load returns the empty
state; in the third it returns the parsed value as-is, with no shape check. -/
def loadLedger : Option (Except Unit Json) → Json
  | none => emptyLedgerJson
  | some (.error _) => emptyLedgerJson
  | some (.ok j) => j

/-- JS property access j[k] on a parsed value: some field value when j is an
object with that field, none (JS undefined) otherwise. -/
def jsonField : Json → String → Option Json
  | .obj fields, k => ((fields.find? (fun p => p.1 == k)).map (fun p => p.2))
  | _, _ => none

/-- ProgressTracker.isCompleted run against a raw loaded Json value:
this.data.completed.some(item => item.transID === transID). When the loaded
value has no completed array the JS property chain throws a TypeError, which
the tracker does not catch. -/
def isCompletedJsonE (j : Json) (tid : String) : Except String Bool :=
  match jsonField j "completed" with
  | some (.arr items) =>
      .ok (items.any (fun it =>
        match jsonField it "transID" with
        | some (.str s) => s == tid
        | _ => false))
  | some _ => .error "TypeError: this.data.completed.some is not a function"
  | none => .error "TypeError: cannot read properties of undefined"

/-- fetchWithRetry's loop body. oracle n is what the n-th httpClient.get call
does. fuel starts at retries, so the loop runs attempts 1..retries; result
none models the loop falling through (only possible when retries = 0, where
the JS function returns undefined). The middle component is the list of slept
delays in order; the last is the number of calls made. -/
def fetchGo (oracle : Nat → Except String String) (delay retries attempt : Nat) :
    Nat → Option (Except String String) × List Nat × Nat
  | 0 => (none, [], 0)
  | fuel + 1 =>
    match oracle attempt with
    | .ok r => (some (.ok r), [], 1)
    | .error e =>
      if attempt = retries then (some (.error e), [], 1)
      else
        ((fetchGo oracle delay retries (attempt + 1) fuel).1,
         delay * attempt :: (fetchGo oracle delay retries (attempt + 1) fuel).2.1,
         (fetchGo oracle delay retries (attempt + 1) fuel).2.2 + 1)

/-- fetchWithRetry(url, options, retries): attempts start at 1. -/
def fetchWithRetry (oracle : Nat → Except String String) (delay retries : Nat) :
    Option (Except String String) × List Nat × Nat :=
  fetchGo oracle delay retries 1 retries

/-- The delays the source actually sleeps after failed attempts 1..k:
delay * 1, delay * 2, ..., delay * k. -/
def linearDelays (delay k : Nat) : List Nat :=
  (List.range k).map (fun i => delay * (i + 1))

/-- Modelled from the spec's words: the spec says the delay slept before
attempt n is retryDelay * n, so before attempts 2..calls it predicts the
schedule delay * 2, ..., delay * calls. Used only to compare against the
schedule the source produces. -/
def specDelaySchedule (delay calls : Nat) : List Nat :=
  (List.range (calls - 1)).map (fun i => delay * (i + 2))

/-- An attempt oracle that always fails. -/
def failOracle : Nat → Except String String := fun _ => .error "net down"

/-- An attempt oracle that fails the first two calls and succeeds on the
third. -/
def okAt3Oracle : Nat → Except String String :=
  fun n => if n = 3 then .ok "resp" else .error "net down"

/-- Observable side effects of one downloadWarrant call, in order. -/
inductive Event where
  | sleepEv
  | fetchDetailEv
  | cacheSetEv (k v : String)
  | fetchFileEv (url : String)
  | writeFileEv (name : String) (data : List Nat)
deriving DecidableEq

/-- The file response: optional content-disposition header and raw bytes. -/
structure FileResp where
  contentDisposition : Option String
  data : List Nat
deriving DecidableEq

/-- Oracle environment for one downloadWarrant call: the current cache, and
what each fallible step would do if reached. extractTerms stands for the
cheerio-based extractTermsURL page parser (external HTML parsing, abstracted
as a pure function of the page body); parseDisposition stands for the
content-disposition filename regex plus quote stripping. -/
structure WorkerEnv where
  cache : List (String × String)
  fetchDetail : Except String String
  cacheSetRes : Except String Unit
  extractTerms : String → Option TermsInfo
  fetchFile : String → Except String FileResp
  parseDisposition : String → Option String
  writeFile : String → List Nat → Except String Unit

/-- The cache key of a detail page, sanitized as CacheManager does. -/
def detailKey (tid : String) : String := sanitizeNonAlnum ("detail_" ++ tid)

/-- The cache-miss path of downloadWarrant's first phase: pacing sleep, detail
fetch, cache write; any raising step becomes an error result, with the
effects performed so far kept in the trace. -/
def htmlMiss (tid : String) (env : WorkerEnv) :
    Except String String × List Event × List (String × String) :=
  match env.fetchDetail with
  | .error e => (.error e, [.sleepEv, .fetchDetailEv], env.cache)
  | .ok h =>
    match env.cacheSetRes with
    | .error e => (.error e, [.sleepEv, .fetchDetailEv], env.cache)
    | .ok _ => (.ok h, [.sleepEv, .fetchDetailEv, .cacheSetEv (detailKey tid) h],
                cacheSet env.cache (detailKey tid) h)

/-- downloadWarrant's first phase: let html = cache.get(...); if (!html)
fetch and cache it. An empty cached body is falsy in JS and is treated as a
miss. -/
def htmlStep (tid : String) (env : WorkerEnv) :
    Except String String × List Event × List (String × String) :=
  match cacheGet env.cache (detailKey tid) with
  | some h => if h = "" then htmlMiss tid env else (.ok h, [], env.cache)
  | none => htmlMiss tid env

/-- The filename derivation: prefer the parsed content-disposition filename,
fall back to the sanitized-symbol convention. -/
def dwFilename (env : WorkerEnv) (ti : TermsInfo) (resp : FileResp) (tid : String) : String :=
  match resp.contentDisposition with
  | some cd =>
    match env.parseDisposition cd with
    | some fn => fn
    | none => fallbackName ti.symbol tid
  | none => fallbackName ti.symbol tid

/-- downloadWarrant(transID, cache, progressBar): returns the outcome, the
trace of performed effects, and the cache after the call. The whole body sits
inside one try/catch, so every raising step becomes a failure outcome whose
reason is that error's message. -/
def downloadWarrant (tid : String) (env : WorkerEnv) :
    DownloadOutcome × List Event × List (String × String) :=
  match htmlStep tid env with
  | (.error e, evs, c) => (failOutcome tid e, evs, c)
  | (.ok html, evs, c) =>
    match env.extractTerms html with
    | none => (failOutcome tid "Terms file not found", evs, c)
    | some ti =>
      match env.fetchFile ti.url with
      | .error e => (failOutcome tid e, evs ++ [.fetchFileEv ti.url], c)
      | .ok resp =>
        match env.writeFile (dwFilename env ti resp tid) resp.data with
        | .error e => (failOutcome tid e, evs ++ [.fetchFileEv ti.url], c)
        | .ok _ =>
          (successOutcome tid ti (dwFilename env ti resp tid) resp.data.length,
           evs ++ [.fetchFileEv ti.url, .writeFileEv (dwFilename env ti resp tid) resp.data],
           c)

/-- Environment where the detail fetch raises (network failure after retries). -/
def env7 : WorkerEnv :=
  { cache := [], fetchDetail := .error "socket hang up", cacheSetRes := .ok (),
    extractTerms := fun _ => none, fetchFile := fun _ => .error "unused",
    parseDisposition := fun _ => none, writeFile := fun _ _ => .error "unused" }

/-- Environment for the filename-fallback witness: detail page "H" is cached,
its symbol is "ABC", the file response carries no content-disposition. -/
def env9 : WorkerEnv :=
  { cache := [(detailKey "123", "H")], fetchDetail := .ok "H", cacheSetRes := .ok (),
    extractTerms := fun h => if h = "H" then some ⟨"http://x/f", "Issuer", "ABC", "2026-01-05"⟩ else none,
    fetchFile := fun _ => .ok ⟨none, [7, 7]⟩,
    parseDisposition := fun _ => none, writeFile := fun _ _ => .ok () }

/-- Environment where the detail page is not cached and the server returns an
empty body; no terms link is ever found. -/
def env10 : WorkerEnv :=
  { cache := [], fetchDetail := .ok "", cacheSetRes := .ok (),
    extractTerms := fun _ => none, fetchFile := fun _ => .error "unused",
    parseDisposition := fun _ => none, writeFile := fun _ _ => .error "unused" }

/-- Environment where the detail page is not cached and the server returns a
nonempty body with no terms link. -/
def env10w : WorkerEnv :=
  { cache := [], fetchDetail := .ok "H", cacheSetRes := .ok (),
    extractTerms := fun _ => none, fetchFile := fun _ => .error "unused",
    parseDisposition := fun _ => none, writeFile := fun _ _ => .error "unused" }

/-- The batch split of processDownloads: slice(i, i + c) for i = 0, c, 2c, ...
Defined with fuel (the list length) so it is total; for c = 0 the source loops
forever, so all batching claims assume 0 < c. -/
def chunksF {α : Type} : Nat → Nat → List α → List (List α)
  | 0, _, _ => []
  | _ + 1, _, [] => []
  | f + 1, c, a :: l => ((a :: l).take c) :: chunksF f c ((a :: l).drop c)

/-- The list of batches of c consecutive ids. -/
def chunks {α : Type} (c : Nat) (l : List α) : List (List α) :=
  chunksF l.length c l

/-- A point in the execution of processDownloads: batches not yet started, the
batch currently awaited by Promise.all (if any), the ids of its workers that
have not yet settled, and the ids already recorded in the ledger
(markCompleted or markFailed, each of which persists synchronously). -/
structure SchedState where
  queued : List (List String)
  current : Option (List String)
  running : List String
  recorded : List String
deriving DecidableEq

/-- The scheduler's initial state for concurrency c over a pending id list. -/
def initSched (c : Nat) (ids : List String) : SchedState :=
  ⟨chunks c ids, none, [], []⟩

/-- Small-step semantics of processDownloads. startBatch fires all workers of
the next batch at once (batch.map inside Promise.all); settle lets one running
worker finish in any order; recordBatch models the forEach after
await Promise.all resolves, which can only happen once no worker of the batch
is still running, and appends the whole batch to the ledger in batch order. -/
inductive SchedStep : SchedState → SchedState → Prop where
  | startBatch (b : List String) (q : List (List String)) (rec : List String) :
      SchedStep ⟨b :: q, none, [], rec⟩ ⟨q, some b, b, rec⟩
  | settle (q : List (List String)) (b l1 l2 : List String) (t : String) (rec : List String) :
      SchedStep ⟨q, some b, l1 ++ t :: l2, rec⟩ ⟨q, some b, l1 ++ l2, rec⟩
  | recordBatch (q : List (List String)) (b : List String) (rec : List String) :
      SchedStep ⟨q, some b, [], rec⟩ ⟨q, none, [], rec ++ b⟩

/-- Reachability in the scheduler's transition system. -/
inductive SchedReach (s : SchedState) : SchedState → Prop where
  | refl : SchedReach s s
  | tail {t u : SchedState} : SchedReach s t → SchedStep t u → SchedReach s u

/-- A crash point mid-batch: the single batch ["1", "2"] has started, worker
"1" has settled, worker "2" is still in flight, and nothing is recorded. -/
def sCrash : SchedState := ⟨[], some ["1", "2"], ["2"], []⟩

/-- A fixed remote world for the two-run pipeline model: the listing body, the
id extraction (the cheerio TransID scan, abstracted as a pure function of the
page body), each item's detail page body, the terms extraction, and the file
server's bytes and disposition header per URL. Fetches always deliver these
values: "no remote content change" across the two runs. -/
structure World where
  dateFrom : String
  dateTo : String
  listingHtml : String
  extractIDs : String → List String
  detailHtml : String → String
  extractTerms : String → Option TermsInfo
  fileData : String → List Nat
  fileDisp : String → Option String
  parseDisp : String → Option String

/-- The persistent state the pipeline manipulates: the cache directory, the
three ledger lists, and the destination directory's files (newest write
first; writeFileSync overwrites). -/
structure PipeState where
  cache : List (String × String)
  completed : List DownloadOutcome
  failed : List DownloadOutcome
  pending : List String
  files : List (String × List Nat)

/-- The shared fetch-through-cache idiom of extractTransIDs and
downloadWarrant: let html = cache.get(key); if (!html) fetch and cache.set.
Returns the body used, the cache after, and the number of network fetches
performed (0 or 1). An empty cached body is falsy and is refetched. -/
def fetchCachedStep (fallback : String) (c : List (String × String)) (k : String) :
    String × List (String × String) × Nat :=
  match cacheGet c k with
  | some h => if h = "" then (fallback, cacheSet c k fallback, 1) else (h, c, 0)
  | none => (fallback, cacheSet c k fallback, 1)

/-- The listing cache key listing_<dateFrom>_<dateTo>, sanitized. -/
def listingKey (w : World) : String :=
  sanitizeNonAlnum ("listing_" ++ w.dateFrom ++ "_" ++ w.dateTo)

/-- The detail-fetch phase of one worker in the deterministic world. -/
def detailFetchStep (w : World) (c : List (String × String)) (tid : String) :
    String × List (String × String) × Nat :=
  fetchCachedStep (w.detailHtml tid) c (detailKey tid)

/-- The filename one worker derives in the deterministic world. -/
def pipeFilename (w : World) (ti : TermsInfo) (tid : String) : String :=
  match w.fileDisp ti.url with
  | some cd =>
    match w.parseDisp cd with
    | some n => n
    | none => fallbackName ti.symbol tid
  | none => fallbackName ti.symbol tid

/-- One worker plus its ledger update in the deterministic world: fetch the
detail page through the cache, extract the terms link, and either record a
failure (markFailed) or fetch the file, write it, and record a success
(markCompleted). The second component counts network fetches. -/
def pipeWorker (w : World) (st : PipeState) (tid : String) : PipeState × Nat :=
  match w.extractTerms (detailFetchStep w st.cache tid).1 with
  | none =>
    ({ st with
       cache := (detailFetchStep w st.cache tid).2.1,
       failed := st.failed ++ [failOutcome tid "Terms file not found"],
       pending := st.pending.filter (fun id => id != tid) },
     (detailFetchStep w st.cache tid).2.2)
  | some ti =>
    ({ st with
       cache := (detailFetchStep w st.cache tid).2.1,
       completed := st.completed ++
         [successOutcome tid ti (pipeFilename w ti tid) (w.fileData ti.url).length],
       pending := st.pending.filter (fun id => id != tid),
       files := (pipeFilename w ti tid, w.fileData ti.url) :: st.files },
     (detailFetchStep w st.cache tid).2.2 + 1)

/-- The cumulative effect of processDownloads over the pending ids in the
deterministic world, with within-batch effects serialized in batch order (the
order Promise.all hands results to the recording loop). -/
def processDownloadsFold (w : World) : PipeState → List String → PipeState × Nat
  | st, [] => (st, 0)
  | st, t :: ts =>
    ((processDownloadsFold w (pipeWorker w st t).1 ts).1,
     (pipeWorker w st t).2 + (processDownloadsFold w (pipeWorker w st t).1 ts).2)

/-- main after setPending: exit early when nothing is pending, else run the
downloads. -/
def pipelineSched (w : World) (st2 : PipeState) (lf : Nat) : PipeState × Nat :=
  if st2.pending.isEmpty then (st2, lf)
  else ((processDownloadsFold w st2 st2.pending).1,
        lf + (processDownloadsFold w st2 st2.pending).2)

/-- main after listing resolution: exit early when no warrants were found,
else recompute pending (setPending) and schedule. -/
def pipelineAfterListing (w : World) (st1 : PipeState) (ids : List String) (lf : Nat) :
    PipeState × Nat :=
  if ids.isEmpty then (st1, lf)
  else
    pipelineSched w
      { st1 with pending := ids.filter (fun id => !(isCompletedL st1.completed id)) } lf

/-- One full run of main's pipeline: resolve the listing through the cache
(extractTransIDs), then setPending and processDownloads. The second component
counts the network fetches of the run. -/
def runPipeline (w : World) (st : PipeState) : PipeState × Nat :=
  pipelineAfterListing w
    { st with cache := (fetchCachedStep w.listingHtml st.cache (listingKey w)).2.1 }
    (w.extractIDs (fetchCachedStep w.listingHtml st.cache (listingKey w)).1)
    (fetchCachedStep w.listingHtml st.cache (listingKey w)).2.2

/-- An item a run has processed ends with its detail page cached under its key
with a nonempty body, and if it is not completed then that cached body has no
terms link (so a later run re-derives the same failure from cache). -/
def goodAt (w : World) (st : PipeState) (tid : String) : Prop :=
  ∃ h, cacheGet st.cache (detailKey tid) = some h ∧ h ≠ "" ∧
    (isCompletedL st.completed tid = false → w.extractTerms h = none)

/-- A concrete two-item world for the idempotence witness. -/
def wW : World :=
  { dateFrom := "2026-01-01", dateTo := "2026-01-31",
    listingHtml := "L",
    extractIDs := fun h => if h = "L" then ["1", "2"] else [],
    detailHtml := fun _ => "D",
    extractTerms := fun h =>
      if h = "D" then some ⟨"http://x/f", "IssuerCo", "AB-C", "2026-01-05"⟩ else none,
    fileData := fun _ => [1, 2, 3],
    fileDisp := fun _ => none,
    parseDisp := fun _ => none }

/-- A fresh state: empty cache, empty ledger, no files. -/
def sEmpty : PipeState := ⟨[], [], [], [], []⟩

/- ------------------------------------------------------------------
Theorems. Helper lemmas come first, then one theorem per claim (with its
witness or counterexample).
------------------------------------------------------------------ -/

theorem applyOps_cons (d : LedgerData) (op : LedgerOp) (ops : List LedgerOp) :
    applyOps d (op :: ops) = applyOps (applyOp d op) ops := rfl

theorem completed_applyOps (ops : List LedgerOp) :
    ∀ d, (applyOps d ops).completed = d.completed ++ ops.filterMap completedPayload := by
  induction ops with
  | nil => intro d; simp [applyOps]
  | cons op ops ih =>
    intro d
    rw [applyOps_cons]
    cases op with
    | setPend ids =>
      simp [applyOp, setPending, ih, completedPayload, List.filterMap_cons]
    | complete r =>
      simp [applyOp, markCompleted, ih, completedPayload, List.filterMap_cons]
    | fail r =>
      simp [applyOp, markFailed, ih, completedPayload, List.filterMap_cons]

theorem failed_applyOps (ops : List LedgerOp) :
    ∀ d, (applyOps d ops).failed = d.failed ++ ops.filterMap failedPayload := by
  induction ops with
  | nil => intro d; simp [applyOps]
  | cons op ops ih =>
    intro d
    rw [applyOps_cons]
    cases op with
    | setPend ids =>
      simp [applyOp, setPending, ih, failedPayload, List.filterMap_cons]
    | complete r =>
      simp [applyOp, markCompleted, ih, failedPayload, List.filterMap_cons]
    | fail r =>
      simp [applyOp, markFailed, ih, failedPayload, List.filterMap_cons]

theorem nodup_filterMap_unique {α β : Type} (f : α → Option β) :
    ∀ (l : List α) (a a' : α) (v : β), (l.filterMap f).Nodup → a ∈ l → a' ∈ l →
      a ≠ a' → f a = some v → f a' = some v → False := by
  intro l
  induction l with
  | nil => intro a a' v _ ha; simp at ha
  | cons x l ih =>
    intro a a' v hnd ha ha' hne hfa hfa'
    rcases List.mem_cons.mp ha with rfl | ha2
    · rcases List.mem_cons.mp ha' with rfl | ha2'
      · exact hne rfl
      · rw [List.filterMap_cons_some hfa] at hnd
        exact (List.nodup_cons.mp hnd).1 (List.mem_filterMap.mpr ⟨a', ha2', hfa'⟩)
    · rcases List.mem_cons.mp ha' with rfl | ha2'
      · rw [List.filterMap_cons_some hfa'] at hnd
        exact (List.nodup_cons.mp hnd).1 (List.mem_filterMap.mpr ⟨a, ha2, hfa⟩)
      · have hnd2 : (l.filterMap f).Nodup := by
          cases hfx : f x with
          | none => rw [List.filterMap_cons_none hfx] at hnd; exact hnd
          | some b => rw [List.filterMap_cons_some hfx] at hnd; exact (List.nodup_cons.mp hnd).2
        exact ih a a' v hnd2 ha2 ha2' hne hfa hfa'

/-- C3 (amended): if, across the whole call sequence, no itemID is the
argument of more than one markCompleted/markFailed call, then each itemID
appears in at most one of the completed and failed lists. (As stated the claim
is false: markCompleted and markFailed only remove the id from pending, never
from the other outcome list, so a failure later followed by a success leaves
the id in both lists.) -/
theorem exclusive_when_marks_unique (ops : List LedgerOp)
    (h : (ops.filterMap markID).Nodup) (tid : String) :
    ¬(isCompletedL (applyOps emptyLedger ops).completed tid = true ∧
      isCompletedL (applyOps emptyLedger ops).failed tid = true) := by
  rintro ⟨hcl, hfl⟩
  rw [completed_applyOps] at hcl
  rw [failed_applyOps] at hfl
  rw [show emptyLedger.completed = [] from rfl, List.nil_append] at hcl
  rw [show emptyLedger.failed = [] from rfl, List.nil_append] at hfl
  rcases List.any_eq_true.mp hcl with ⟨r, hr, hbeq⟩
  rcases List.any_eq_true.mp hfl with ⟨r', hr', hbeq'⟩
  have hrt : r.transID = tid := eq_of_beq hbeq
  have hrt' : r'.transID = tid := eq_of_beq hbeq'
  rcases List.mem_filterMap.mp hr with ⟨a, ha, hpa⟩
  rcases List.mem_filterMap.mp hr' with ⟨a', ha', hpa'⟩
  have hac : a = .complete r := by
    cases a <;> simp [completedPayload] at hpa
    rw [hpa]
  have haf : a' = .fail r' := by
    cases a' <;> simp [failedPayload] at hpa'
    rw [hpa']
  have hma : markID a = some tid := by rw [hac]; simp [markID, hrt]
  have hma' : markID a' = some tid := by rw [haf]; simp [markID, hrt']
  have hne : a ≠ a' := by rw [hac, haf]; intro hx; exact LedgerOp.noConfusion hx
  exact nodup_filterMap_unique markID ops a a' tid h ha ha' hne hma hma'

/-- C3 counterexample: the cross-run sequence "listed, failed, listed again,
succeeded" (exactly the retry-across-runs scenario the claim cites) leaves
item "1" in BOTH the completed and the failed list: markCompleted appends to
completed but does not remove the id from failed. -/
theorem mark_both_lists_reachable :
    isCompletedL (applyOps emptyLedger cexOps).completed "1" = true ∧
    isCompletedL (applyOps emptyLedger cexOps).failed "1" = true := by decide

/-- Witness for the amended C3 theorem at a concrete call sequence with
pairwise-distinct marked ids. -/
theorem exclusive_when_marks_unique_witness :
    ¬(isCompletedL (applyOps emptyLedger
        [.setPend ["1", "2"], .complete (failOutcome "1" "x"), .fail (failOutcome "2" "y")]).completed "1" = true ∧
      isCompletedL (applyOps emptyLedger
        [.setPend ["1", "2"], .complete (failOutcome "1" "x"), .fail (failOutcome "2" "y")]).failed "1" = true) :=
  exclusive_when_marks_unique
    [.setPend ["1", "2"], .complete (failOutcome "1" "x"), .fail (failOutcome "2" "y")]
    (by decide) "1"

/-- C4 (amended): after setPending(allIDs), (1) pending is exactly the
listing ids that are not already completed, (2) every listing id is pending or
completed, and (3) pending together with the completed ids equals the
listing's id set provided every completed id comes from the listing. (As
stated the claim is false: a completed id from an earlier run over a
different listing stays in the union, making it strictly larger.) -/
theorem setPending_pending_characterization (ids : List String) (d : LedgerData) :
    (∀ a, a ∈ (setPending d ids).pending ↔ (a ∈ ids ∧ isCompleted d a = false))
    ∧ (∀ a, a ∈ ids → a ∈ (setPending d ids).pending ∨ isCompleted d a = true)
    ∧ ((∀ r, r ∈ d.completed → r.transID ∈ ids) →
        ∀ a, (a ∈ (setPending d ids).pending ∨ isCompleted d a = true) ↔ a ∈ ids) := by
  have h1 : ∀ a, a ∈ (setPending d ids).pending ↔ (a ∈ ids ∧ isCompleted d a = false) := by
    intro a
    simp [setPending, List.mem_filter]
  refine ⟨h1, ?_, ?_⟩
  · intro a ha
    cases hb : isCompleted d a with
    | true => exact Or.inr rfl
    | false => exact Or.inl ((h1 a).mpr ⟨ha, hb⟩)
  · intro hsub a
    constructor
    · rintro (hp | hc)
      · exact ((h1 a).mp hp).1
      · rcases List.any_eq_true.mp hc with ⟨r, hr, hbeq⟩
        have := hsub r hr
        rwa [eq_of_beq hbeq] at this
    · intro ha
      cases hb : isCompleted d a with
      | true => exact Or.inr rfl
      | false => exact Or.inl ((h1 a).mpr ⟨ha, hb⟩)

/-- C4 counterexample: with prior completed id "2" (from another run) and
listing ["1"], the id "2" lies in pending-or-completed but not in the
listing, so the union does not equal the listing's id set. -/
theorem setPending_union_exceeds_listing :
    ∃ a, (a ∈ (setPending d4 ["1"]).pending ∨ isCompleted d4 a = true) ∧
      a ∉ (["1"] : List String) :=
  ⟨"2", by decide⟩

/-- Witness for the amended C4 theorem at a concrete listing and ledger whose
completed ids all come from the listing. -/
theorem setPending_pending_characterization_witness :
    ("2" ∈ (setPending d4 ["1", "2"]).pending ∨ isCompleted d4 "2" = true) ↔
      "2" ∈ (["1", "2"] : List String) :=
  (setPending_pending_characterization ["1", "2"] d4).2.2 (by decide) "2"

/-- C6 (amended): when the progress file is absent or JSON.parse throws, the
ledger loads as the empty state and reads of it never fail; when JSON.parse
succeeds the parsed value is adopted verbatim, with no shape validation. -/
theorem load_absent_or_unparsable_empty (file : Option (Except Unit Json))
    (h : file = none ∨ file = some (.error ())) :
    loadLedger file = emptyLedgerJson
    ∧ (∀ tid, isCompletedJsonE (loadLedger file) tid = .ok false)
    ∧ (∀ j, loadLedger (some (.ok j)) = j) := by
  rcases h with h | h
  · subst h; exact ⟨rfl, fun _ => rfl, fun _ => rfl⟩
  · subst h; exact ⟨rfl, fun _ => rfl, fun _ => rfl⟩

/-- Witness for the amended C6 theorem: the absent-file case, evaluated. -/
theorem load_absent_or_unparsable_empty_witness :
    loadLedger none = emptyLedgerJson
    ∧ isCompletedJsonE (loadLedger none) "1" = .ok false :=
  ⟨(load_absent_or_unparsable_empty none (Or.inl rfl)).1,
   (load_absent_or_unparsable_empty none (Or.inl rfl)).2.1 "1"⟩

/-- C6 counterexample: the file content is the two characters of an empty
JSON object, which JSON.parse accepts (yielding the empty object), so the
ledger does NOT initialize to the empty state, and the first isCompleted read
then throws — corrupt-but-parsable state is fatal for the run. -/
theorem load_parsable_corrupt_not_empty :
    loadLedger (some (.ok (.obj []))) = .obj []
    ∧ loadLedger (some (.ok (.obj []))) ≠ emptyLedgerJson
    ∧ isCompletedJsonE (loadLedger (some (.ok (.obj [])))) "1"
        = .error "TypeError: cannot read properties of undefined" := by
  refine ⟨rfl, ?_, rfl⟩
  intro h
  simp [loadLedger, emptyLedgerJson] at h

theorem fetchGo_ok (oracle : Nat → Except String String) (δ R : Nat) :
    ∀ (fuel a k : Nat) (v : String), a + fuel = R + 1 → 1 ≤ a → a ≤ k → k ≤ R →
      (∀ n, a ≤ n → n < k → ∃ e, oracle n = .error e) → oracle k = .ok v →
      fetchGo oracle δ R a fuel =
        (some (.ok v), (List.range (k - a)).map (fun i => δ * (a + i)), k + 1 - a) := by
  intro fuel
  induction fuel with
  | zero => intro a k v hfuel _ hak hkR _ _; omega
  | succ fuel ih =>
    intro a k v hfuel ha1 hak hkR hfail hok
    by_cases hk : a = k
    · subst hk
      have hoa : oracle a = .ok v := hok
      simp [fetchGo, hoa, Nat.sub_self]
    · have haltk : a < k := lt_of_le_of_ne hak hk
      obtain ⟨e, he⟩ := hfail a (le_refl a) haltk
      have haR : ¬(a = R) := by omega
      have hrec := ih (a + 1) k v (by omega) (by omega) (by omega) hkR
        (fun n hn1 hn2 => hfail n (by omega) hn2) hok
      simp only [fetchGo, he, if_neg haR, hrec]
      simp only [Prod.mk.injEq]
      refine ⟨trivial, ?_, by omega⟩
      have h1 : k - a = (k - (a + 1)) + 1 := by omega
      rw [h1, List.range_succ_eq_map, List.map_cons, List.map_map]
      congr 1
      refine List.map_congr_left ?_
      intro x _
      simp only [Function.comp]
      congr 1
      omega



theorem fetchGo_err (oracle : Nat → Except String String) (δ R : Nat) :
    ∀ (fuel a : Nat) (e : String), a + fuel = R + 1 → 1 ≤ a → a ≤ R →
      (∀ n, a ≤ n → n < R → ∃ e', oracle n = .error e') → oracle R = .error e →
      fetchGo oracle δ R a fuel =
        (some (.error e), (List.range (R - a)).map (fun i => δ * (a + i)), R + 1 - a) := by
  intro fuel
  induction fuel with
  | zero => intro a e hfuel _ haR _ _; omega
  | succ fuel ih =>
    intro a e hfuel ha1 haR hfail herr
    by_cases hk : a = R
    · subst hk
      simp [fetchGo, herr, Nat.sub_self]
    · have haltR : a < R := lt_of_le_of_ne haR hk
      obtain ⟨e', he'⟩ := hfail a (le_refl a) haltR
      have hrec := ih (a + 1) e (by omega) (by omega) (by omega)
        (fun n hn1 hn2 => hfail n (by omega) hn2) herr
      simp only [fetchGo, he', if_neg hk, hrec]
      simp only [Prod.mk.injEq]
      refine ⟨trivial, ?_, by omega⟩
      have h1 : R - a = (R - (a + 1)) + 1 := by omega
      rw [h1, List.range_succ_eq_map, List.map_cons, List.map_map]
      congr 1
      refine List.map_congr_left ?_
      intro x _
      simp only [Function.comp]
      congr 1
      omega

/-- C5 (amended): fetchWithRetry makes at most retryAttempts calls in total;
after failed attempt n it sleeps retryDelay * n before attempt n + 1 (so the
delay slept before attempt n, for n >= 2, is retryDelay * (n - 1)); a request
that fails its first k - 1 calls and succeeds on call k <= retryAttempts
yields that response after exactly k calls and delays
retryDelay * 1, ..., retryDelay * (k - 1); and when all retryAttempts calls
fail, the final call's error is propagated to the caller. -/
theorem fetch_retry_contract :
    (∀ (oracle : Nat → Except String String) (δ R k : Nat) (v : String),
       1 ≤ k → k ≤ R →
       (∀ n, 1 ≤ n → n < k → ∃ e, oracle n = .error e) → oracle k = .ok v →
       fetchWithRetry oracle δ R = (some (.ok v), linearDelays δ (k - 1), k))
    ∧ (∀ (oracle : Nat → Except String String) (δ R : Nat) (e : String),
       1 ≤ R →
       (∀ n, 1 ≤ n → n < R → ∃ e', oracle n = .error e') → oracle R = .error e →
       fetchWithRetry oracle δ R = (some (.error e), linearDelays δ (R - 1), R)) := by
  constructor
  · intro oracle δ R k v hk1 hkR hfail hok
    have h := fetchGo_ok oracle δ R R 1 k v (by omega) (by omega) hk1 hkR hfail hok
    rw [fetchWithRetry, h]
    simp only [Prod.mk.injEq]
    refine ⟨trivial, ?_, by omega⟩
    refine List.map_congr_left ?_
    intro x _
    congr 1
    omega
  · intro oracle δ R e hR1 hfail herr
    have h := fetchGo_err oracle δ R R 1 e (by omega) (by omega) hR1 hfail herr
    rw [fetchWithRetry, h]
    simp only [Prod.mk.injEq]
    refine ⟨trivial, ?_, by omega⟩
    refine List.map_congr_left ?_
    intro x _
    congr 1
    omega

/-- C5 counterexample: with retryDelay 2000 and retryAttempts 3 against an
always-failing request, the source sleeps [2000, 4000] (retryDelay * 1 before
attempt 2, retryDelay * 2 before attempt 3) and makes 3 calls in total,
whereas the claim's schedule "retryDelay * n before attempt n" predicts
[4000, 6000] for attempts 2 and 3, and "retries up to retryAttempts times"
predicts 1 + 3 calls for an always-failing request. -/
theorem fetch_retry_delay_schedule_cex :
    fetchWithRetry failOracle 2000 3 = (some (.error "net down"), [2000, 4000], 3)
    ∧ specDelaySchedule 2000 3 = [4000, 6000]
    ∧ ([2000, 4000] : List Nat) ≠ [4000, 6000]
    ∧ (3 : Nat) ≠ 1 + 3 :=
  ⟨rfl, by decide, by decide, by decide⟩

/-- Witness for the amended C5 theorem: an oracle failing its first two calls
and succeeding on the third (retryAttempts = 3) yields an overall success
after delays 2000 and 4000. -/
theorem fetch_retry_contract_witness :
    fetchWithRetry okAt3Oracle 2000 3 = (some (.ok "resp"), linearDelays 2000 2, 3)
    ∧ linearDelays 2000 2 = [2000, 4000] := by
  constructor
  · exact fetch_retry_contract.1 okAt3Oracle 2000 3 3 "resp" (by omega) (by omega)
      (fun n h1 h2 => ⟨"net down", by simp only [okAt3Oracle]; rw [if_neg (by omega)]⟩)
      rfl
  · decide


theorem cacheGet_set_self (c : List (String × String)) (k v : String) :
    cacheGet (cacheSet c k v) k = some v := by
  simp [cacheGet, cacheSet, List.find?]

theorem cacheGet_set_ne (c : List (String × String)) (k k' v : String) (h : k' ≠ k) :
    cacheGet (cacheSet c k v) k' = cacheGet c k' := by
  have hb : (k == k') = false := beq_eq_false_iff_ne.mpr (Ne.symm h)
  simp [cacheGet, cacheSet, List.find?, hb]

/-- C7: downloadWarrant always returns exactly one outcome carrying its
transID (totality is the type of the embedding: the body is one try/catch),
and whenever a step raises — the detail fetch, the detail cache write, the
file fetch, or the file write — the returned outcome is the failure outcome
carrying that error's message as reason; a missing terms link yields the
"Terms file not found" failure outcome. -/
theorem downloadWarrant_outcome_total (tid : String) (env : WorkerEnv) :
    ((downloadWarrant tid env).1.transID = tid)
    ∧ (∀ e evs c, htmlStep tid env = (.error e, evs, c) →
         (downloadWarrant tid env).1 = failOutcome tid e)
    ∧ (∀ html evs c, htmlStep tid env = (.ok html, evs, c) →
         env.extractTerms html = none →
         (downloadWarrant tid env).1 = failOutcome tid "Terms file not found")
    ∧ (∀ html evs c ti e, htmlStep tid env = (.ok html, evs, c) →
         env.extractTerms html = some ti → env.fetchFile ti.url = .error e →
         (downloadWarrant tid env).1 = failOutcome tid e)
    ∧ (∀ html evs c ti resp e, htmlStep tid env = (.ok html, evs, c) →
         env.extractTerms html = some ti → env.fetchFile ti.url = .ok resp →
         env.writeFile (dwFilename env ti resp tid) resp.data = .error e →
         (downloadWarrant tid env).1 = failOutcome tid e)
    ∧ (∀ e, env.fetchDetail = .error e →
         (cacheGet env.cache (detailKey tid) = none ∨
          cacheGet env.cache (detailKey tid) = some "") →
         (downloadWarrant tid env).1 = failOutcome tid e)
    ∧ (∀ html e, env.fetchDetail = .ok html → env.cacheSetRes = .error e →
         (cacheGet env.cache (detailKey tid) = none ∨
          cacheGet env.cache (detailKey tid) = some "") →
         (downloadWarrant tid env).1 = failOutcome tid e) := by
  refine ⟨?_, ?_, ?_, ?_, ?_, ?_, ?_⟩
  · rcases hh : htmlStep tid env with ⟨res, evs0, c0⟩
    cases res with
    | error e => simp [downloadWarrant, hh, failOutcome]
    | ok html =>
      cases hext : env.extractTerms html with
      | none => simp [downloadWarrant, hh, hext, failOutcome]
      | some ti =>
        cases hff : env.fetchFile ti.url with
        | error e => simp [downloadWarrant, hh, hext, hff, failOutcome]
        | ok resp =>
          cases hwf : env.writeFile (dwFilename env ti resp tid) resp.data with
          | error e => simp [downloadWarrant, hh, hext, hff, hwf, failOutcome]
          | ok u => simp [downloadWarrant, hh, hext, hff, hwf, successOutcome]
  · intro e evs0 c0 hh
    simp [downloadWarrant, hh]
  · intro html evs0 c0 hh hext
    simp [downloadWarrant, hh, hext]
  · intro html evs0 c0 ti e hh hext hff
    simp [downloadWarrant, hh, hext, hff]
  · intro html evs0 c0 ti resp e hh hext hff hwf
    simp [downloadWarrant, hh, hext, hff, hwf]
  · intro e hfd hmiss
    have hstep : htmlStep tid env = (.error e, [.sleepEv, .fetchDetailEv], env.cache) := by
      rcases hmiss with h | h <;> simp [htmlStep, h, htmlMiss, hfd]
    simp [downloadWarrant, hstep]
  · intro html e hfd hcs hmiss
    have hstep : htmlStep tid env = (.error e, [.sleepEv, .fetchDetailEv], env.cache) := by
      rcases hmiss with h | h <;> simp [htmlStep, h, htmlMiss, hfd, hcs]
    simp [downloadWarrant, hstep]

/-- Witness for C7: the detail fetch raises "socket hang up" on an uncached
item; the outcome is the failure outcome with that reason. -/
theorem downloadWarrant_outcome_total_witness :
    (downloadWarrant "9" env7).1 = failOutcome "9" "socket hang up" :=
  (downloadWarrant_outcome_total "9" env7).2.2.2.2.2.1 "socket hang up" rfl (Or.inl rfl)

/-- C9: on the success path, when the file response lacks a
content-disposition header the filename written and reported is exactly
sanitizedSymbol ++ "_Terms_" ++ itemID ++ ".pdf". -/
theorem filename_fallback (tid : String) (env : WorkerEnv) (html : String)
    (evs : List Event) (c : List (String × String)) (ti : TermsInfo) (resp : FileResp)
    (h1 : htmlStep tid env = (.ok html, evs, c))
    (h2 : env.extractTerms html = some ti)
    (h3 : env.fetchFile ti.url = .ok resp)
    (h4 : resp.contentDisposition = none)
    (h5 : env.writeFile (fallbackName ti.symbol tid) resp.data = .ok ()) :
    (downloadWarrant tid env).1.success = true
    ∧ (downloadWarrant tid env).1.filename
        = some (sanitizeNonAlnum ti.symbol ++ "_Terms_" ++ tid ++ ".pdf")
    ∧ Event.writeFileEv (sanitizeNonAlnum ti.symbol ++ "_Terms_" ++ tid ++ ".pdf") resp.data
        ∈ (downloadWarrant tid env).2.1 := by
  have hfn : dwFilename env ti resp tid = fallbackName ti.symbol tid := by
    simp [dwFilename, h4]
  simp only [fallbackName] at h5
  simp [downloadWarrant, h1, h2, h3, hfn, fallbackName, successOutcome, h5]

/-- Witness for C9 at the claim's own instance: symbol "ABC" and item ID
"123" give exactly the filename "ABC_Terms_123.pdf". -/
theorem filename_fallback_witness :
    (downloadWarrant "123" env9).1.success = true
    ∧ (downloadWarrant "123" env9).1.filename = some "ABC_Terms_123.pdf" := by
  have h := filename_fallback "123" env9 "H" [] env9.cache
      ⟨"http://x/f", "Issuer", "ABC", "2026-01-05"⟩ ⟨none, [7, 7]⟩ rfl rfl rfl rfl rfl
  refine ⟨h.1, ?_⟩
  rw [h.2.1]
  decide

/-- C10 (amended): on a cache miss with a successful detail fetch, the page is
cached (the cacheSet effect precedes any examination of the page: it is the
last effect in the trace, and extraction performs no effect), the write
survives a "Terms file not found" failure outcome, and — provided the fetched
body is nonempty — any later call that finds it cached performs no detail
fetch and re-derives the same failure from the same cached page. (As stated
the claim is false: an empty cached body is falsy in the source's
if (!html) check, so it is treated as a miss and refetched.) -/
theorem detail_cache_write_survives_failure (tid : String) (env : WorkerEnv) (html : String)
    (h0 : cacheGet env.cache (detailKey tid) = none)
    (h1 : env.fetchDetail = .ok html)
    (h2 : env.cacheSetRes = .ok ())
    (h3 : env.extractTerms html = none) :
    (downloadWarrant tid env).1 = failOutcome tid "Terms file not found"
    ∧ (downloadWarrant tid env).2.1
        = [.sleepEv, .fetchDetailEv, .cacheSetEv (detailKey tid) html]
    ∧ cacheGet (downloadWarrant tid env).2.2 (detailKey tid) = some html
    ∧ (html ≠ "" → ∀ env' : WorkerEnv,
         cacheGet env'.cache (detailKey tid) = some html →
         (Event.fetchDetailEv ∉ (downloadWarrant tid env').2.1
          ∧ (env'.extractTerms html = none →
              (downloadWarrant tid env').1 = failOutcome tid "Terms file not found"
              ∧ (downloadWarrant tid env').2.1 = []))) := by
  have hstep : htmlStep tid env =
      (.ok html, [.sleepEv, .fetchDetailEv, .cacheSetEv (detailKey tid) html],
       cacheSet env.cache (detailKey tid) html) := by
    simp [htmlStep, h0, htmlMiss, h1, h2]
  refine ⟨?_, ?_, ?_, ?_⟩
  · simp [downloadWarrant, hstep, h3]
  · simp [downloadWarrant, hstep, h3]
  · simp [downloadWarrant, hstep, h3, cacheGet_set_self]
  · intro hne env' hc'
    have hstep' : htmlStep tid env' = (.ok html, [], env'.cache) := by
      simp [htmlStep, hc', if_neg hne]
    constructor
    · cases hext : env'.extractTerms html with
      | none => simp [downloadWarrant, hstep', hext]
      | some ti =>
        cases hff : env'.fetchFile ti.url with
        | error e => simp [downloadWarrant, hstep', hext, hff]
        | ok resp =>
          cases hwf : env'.writeFile (dwFilename env' ti resp tid) resp.data with
          | error e => simp [downloadWarrant, hstep', hext, hff, hwf]
          | ok u => simp [downloadWarrant, hstep', hext, hff, hwf]
    · intro hext'
      exact ⟨by simp [downloadWarrant, hstep', hext'], by simp [downloadWarrant, hstep', hext']⟩

/-- C10 counterexample: the detail fetch returns an empty body; the body is
cached, but a second call with that cache still performs a detail fetch —
the empty cached body is falsy and treated as a miss, so later runs do NOT
skip the fetch for this item. -/
theorem cached_empty_detail_refetched :
    cacheGet (downloadWarrant "7" env10).2.2 (detailKey "7") = some ""
    ∧ Event.fetchDetailEv ∈
        (downloadWarrant "7" { env10 with cache := (downloadWarrant "7" env10).2.2 }).2.1 := by
  constructor
  · rfl
  · decide

/-- Witness for the amended C10 theorem: a nonempty uncached body "H" with no
terms link is cached, the call fails with "Terms file not found", and the
cached entry is present afterwards. -/
theorem detail_cache_write_survives_failure_witness :
    (downloadWarrant "5" env10w).1 = failOutcome "5" "Terms file not found"
    ∧ cacheGet (downloadWarrant "5" env10w).2.2 (detailKey "5") = some "H" := by
  have h := detail_cache_write_survives_failure "5" env10w "H" rfl rfl rfl rfl
  exact ⟨h.1, h.2.2.1⟩


theorem chunksF_join {α : Type} (c : Nat) (hc : 0 < c) :
    ∀ (f : Nat) (l : List α), l.length ≤ f → (chunksF f c l).flatten = l := by
  intro f
  induction f with
  | zero =>
    intro l hl
    have hnil : l = [] := List.eq_nil_of_length_eq_zero (Nat.le_zero.mp hl)
    subst hnil
    simp [chunksF]
  | succ f ih =>
    intro l hl
    cases l with
    | nil => simp [chunksF]
    | cons a t =>
      simp only [chunksF, List.flatten_cons]
      rw [ih ((a :: t).drop c) ?hlen, List.take_append_drop]
      case hlen =>
        have hd : ((a :: t).drop c).length = (a :: t).length - c := List.length_drop c (a :: t)
        simp only [List.length_cons] at hd hl
        omega

theorem chunksF_length_le {α : Type} (c : Nat) :
    ∀ (f : Nat) (l : List α) (b : List α), b ∈ chunksF f c l → b.length ≤ c := by
  intro f
  induction f with
  | zero => intro l b hb; simp [chunksF] at hb
  | succ f ih =>
    intro l b hb
    cases l with
    | nil => simp [chunksF] at hb
    | cons a t =>
      simp only [chunksF, List.mem_cons] at hb
      rcases hb with rfl | hb
      · exact List.length_take_le c (a :: t)
      · exact ih _ b hb

theorem chunks_join {α : Type} (c : Nat) (l : List α) (hc : 0 < c) :
    (chunks c l).flatten = l :=
  chunksF_join c hc l.length l (le_refl _)

theorem chunks_length_le {α : Type} (c : Nat) (l : List α) :
    ∀ b ∈ chunks c l, b.length ≤ c :=
  fun b hb => chunksF_length_le c l.length l b hb

theorem sched_inv (c : Nat) (ids : List String) (s : SchedState)
    (h : SchedReach (initSched c ids) s) :
    (∀ b ∈ s.queued, b.length ≤ c) ∧ s.running.length ≤ c := by
  induction h with
  | refl =>
    refine ⟨?_, ?_⟩
    · intro b hb; exact chunks_length_le c ids b hb
    · simp [initSched]
  | tail hreach hstep ih =>
    cases hstep with
    | startBatch b q rec =>
      refine ⟨?_, ?_⟩
      · intro b' hb'; exact ih.1 b' (List.mem_cons_of_mem b hb')
      · exact ih.1 b (List.mem_cons_self b q)
    | settle q b l1 l2 t rec =>
      refine ⟨ih.1, ?_⟩
      have h2 := ih.2
      simp only [List.length_append, List.length_cons] at h2 ⊢
      omega
    | recordBatch q b rec => exact ih

/-- C8: processDownloads partitions the pending ids into consecutive batches
of at most concurrentDownloads items (their concatenation is the pending list
in order), and in every reachable scheduler state at most concurrentDownloads
workers are unsettled — batch n + 1 starts only from a state with no running
worker, so in-flight requests never exceed the configured ceiling. -/
theorem scheduler_concurrency_bound (c : Nat) (ids : List String) (s : SchedState)
    (hc : 0 < c) (h : SchedReach (initSched c ids) s) :
    s.running.length ≤ c
    ∧ (chunks c ids).flatten = ids
    ∧ (∀ b ∈ chunks c ids, b.length ≤ c) :=
  ⟨(sched_inv c ids s h).2, chunks_join c ids hc, chunks_length_le c ids⟩

/-- Witness for C8 at concurrency 3 over four ids, at the initial state. -/
theorem scheduler_concurrency_bound_witness :
    (initSched 3 ["1", "2", "3", "4"]).running.length ≤ 3
    ∧ (chunks 3 ["1", "2", "3", "4"]).flatten = ["1", "2", "3", "4"]
    ∧ (∀ b ∈ chunks 3 ["1", "2", "3", "4"], b.length ≤ 3) :=
  scheduler_concurrency_bound 3 ["1", "2", "3", "4"] (initSched 3 ["1", "2", "3", "4"])
    (by omega) SchedReach.refl

/-- C2 (amended): in every reachable scheduler state the ledger holds exactly
the items of the fully processed batches, in order — ledger updates happen
only after the whole current batch has settled (await Promise.all, then the
forEach of markCompleted/markFailed), so a crash mid-batch can lose any item
of the current batch, settled or not, but never an item of an earlier,
fully recorded batch. (As stated the claim is false: a worker that settles
while its batch-mates are still in flight is not yet persisted.) -/
theorem scheduler_records_exactly_completed_batches (c : Nat) (ids : List String)
    (s : SchedState) (h : SchedReach (initSched c ids) s) :
    ∃ k, s.recorded = ((chunks c ids).take k).flatten
      ∧ (chunks c ids).drop k =
          (match s.current with
           | some b => b :: s.queued
           | none => s.queued) := by
  induction h with
  | refl => exact ⟨0, by simp [initSched], by simp [initSched]⟩
  | tail hreach hstep ih =>
    rcases ih with ⟨k, hrec, hdrop⟩
    cases hstep with
    | startBatch b q rec =>
      refine ⟨k, hrec, ?_⟩
      simpa using hdrop
    | settle q b l1 l2 t rec =>
      exact ⟨k, hrec, hdrop⟩
    | recordBatch q b rec =>
      simp only at hrec hdrop
      refine ⟨k + 1, ?_, ?_⟩
      · have h1 : (chunks c ids).take (k + 1) = (chunks c ids).take k ++ [b] := by
          rw [List.take_add, hdrop]
          rfl
        simp only [h1, List.flatten_append, hrec, List.flatten]
        simp
      · have h2 : (chunks c ids).drop (k + 1) = ((chunks c ids).drop k).drop 1 := by
          rw [List.drop_drop]
        simp only [h2, hdrop, List.drop_one]
        rfl

/-- Witness for the amended C2 theorem at the initial state of a one-batch
run. -/
theorem scheduler_records_exactly_completed_batches_witness :
    ∃ k, (initSched 2 ["1"]).recorded = ((chunks 2 ["1"]).take k).flatten
      ∧ (chunks 2 ["1"]).drop k =
          (match (initSched 2 ["1"]).current with
           | some b => b :: (initSched 2 ["1"]).queued
           | none => (initSched 2 ["1"]).queued) :=
  scheduler_records_exactly_completed_batches 2 ["1"] (initSched 2 ["1"]) SchedReach.refl

/-- C2 counterexample: with concurrentDownloads 3 and pending ["1", "2"],
after the batch starts and worker "1" settles (worker "2" still in flight)
the reachable state has "1" settled but NOT recorded in the ledger — a crash
here loses a settled item, contradicting per-item durability. -/
theorem batch_settled_not_recorded_reachable :
    SchedReach (initSched 3 ["1", "2"]) sCrash
    ∧ (∃ b, sCrash.current = some b ∧ "1" ∈ b ∧ "1" ∉ sCrash.running)
    ∧ "1" ∉ sCrash.recorded := by
  refine ⟨?_, ⟨["1", "2"], rfl, by decide, by decide⟩, by decide⟩
  have h0 : initSched 3 ["1", "2"] = ⟨[["1", "2"]], none, [], []⟩ := rfl
  have h1 : SchedStep ⟨[["1", "2"]], none, [], []⟩ ⟨[], some ["1", "2"], ["1", "2"], []⟩ :=
    SchedStep.startBatch ["1", "2"] [] []
  have h2 : SchedStep ⟨[], some ["1", "2"], ["1", "2"], []⟩ sCrash :=
    SchedStep.settle [] ["1", "2"] [] ["2"] "1" []
  rw [h0]
  exact SchedReach.tail (SchedReach.tail SchedReach.refl h1) h2


theorem data_append (s t : String) : (s ++ t).data = s.data ++ t.data := by
  cases s
  cases t
  rfl

theorem detailKey_ne_listingKey (tid : String) (w : World) :
    detailKey tid ≠ listingKey w := by
  intro h
  have h2 := congrArg (fun s => s.data.head?) h
  simp only [detailKey, listingKey, sanitizeNonAlnum, data_append] at h2
  simp [sanitizeChar] at h2

theorem fcs_get_self (f : String) (c : List (String × String)) (k : String) :
    cacheGet (fetchCachedStep f c k).2.1 k = some (fetchCachedStep f c k).1 := by
  cases hg : cacheGet c k with
  | none => simp [fetchCachedStep, hg, cacheGet_set_self]
  | some h =>
    by_cases he : h = ""
    · simp [fetchCachedStep, hg, he, cacheGet_set_self]
    · simp [fetchCachedStep, hg, he]

theorem fcs_preserve (f : String) (c : List (String × String)) (k k' v : String)
    (hv : v ≠ "") (h : cacheGet c k' = some v) :
    cacheGet (fetchCachedStep f c k).2.1 k' = some v := by
  by_cases hk : k' = k
  · subst hk
    simp [fetchCachedStep, h, hv]
  · cases hg : cacheGet c k with
    | none => simp [fetchCachedStep, hg, cacheGet_set_ne c k k' f hk, h]
    | some hh =>
      by_cases he : hh = ""
      · simp [fetchCachedStep, hg, he, cacheGet_set_ne c k k' f hk, h]
      · simp [fetchCachedStep, hg, he, h]

theorem fcs_hit (f : String) (c : List (String × String)) (k h : String)
    (hg : cacheGet c k = some h) (hne : h ≠ "") :
    fetchCachedStep f c k = (h, c, 0) := by
  simp [fetchCachedStep, hg, hne]

theorem fcs_value (f : String) (c : List (String × String)) (k : String) :
    (fetchCachedStep f c k).1 = f ∨
    (∃ h, cacheGet c k = some h ∧ h ≠ "" ∧ (fetchCachedStep f c k).1 = h) := by
  cases hg : cacheGet c k with
  | none => left; simp [fetchCachedStep, hg]
  | some h =>
    by_cases he : h = ""
    · left; simp [fetchCachedStep, hg, he]
    · right
      refine ⟨h, rfl, he, ?_⟩
      simp [fetchCachedStep, hg, he]

theorem fcs_value_nonempty (f : String) (c : List (String × String)) (k : String)
    (hf : f ≠ "") : (fetchCachedStep f c k).1 ≠ "" := by
  rcases fcs_value f c k with h | ⟨h, _, hne, hv⟩
  · rw [h]; exact hf
  · rw [hv]; exact hne

theorem pw_cache (w : World) (st : PipeState) (tid : String) :
    (pipeWorker w st tid).1.cache = (detailFetchStep w st.cache tid).2.1 := by
  unfold pipeWorker
  cases hext : w.extractTerms (detailFetchStep w st.cache tid).1 <;> rfl

theorem pw_preserve (w : World) (st : PipeState) (tid k v : String)
    (hv : v ≠ "") (h : cacheGet st.cache k = some v) :
    cacheGet (pipeWorker w st tid).1.cache k = some v := by
  rw [pw_cache]
  exact fcs_preserve (w.detailHtml tid) st.cache (detailKey tid) k v hv h

theorem pw_completed_mono (w : World) (st : PipeState) (tid t : String)
    (h : isCompletedL st.completed t = true) :
    isCompletedL (pipeWorker w st tid).1.completed t = true := by
  unfold pipeWorker
  cases hext : w.extractTerms (detailFetchStep w st.cache tid).1 with
  | none => simpa using h
  | some ti =>
    unfold isCompletedL at h ⊢
    simp [List.any_append, h]

theorem pw_goodAt_self (w : World) (st : PipeState) (tid : String)
    (hd : w.detailHtml tid ≠ "") :
    goodAt w (pipeWorker w st tid).1 tid := by
  refine ⟨(detailFetchStep w st.cache tid).1, ?_, ?_, ?_⟩
  · rw [pw_cache]
    exact fcs_get_self (w.detailHtml tid) st.cache (detailKey tid)
  · exact fcs_value_nonempty (w.detailHtml tid) st.cache (detailKey tid) hd
  · intro hnc
    cases hext : w.extractTerms (detailFetchStep w st.cache tid).1 with
    | none => rfl
    | some ti =>
      exfalso
      have hcomp : isCompletedL (pipeWorker w st tid).1.completed tid = true := by
        unfold pipeWorker
        rw [hext]
        simp [isCompletedL, List.any_append, successOutcome]
      rw [hnc] at hcomp
      exact Bool.noConfusion hcomp

theorem pw_goodAt_mono (w : World) (st : PipeState) (tid t : String)
    (hg : goodAt w st t) : goodAt w (pipeWorker w st tid).1 t := by
  obtain ⟨h, hget, hne, himp⟩ := hg
  refine ⟨h, pw_preserve w st tid (detailKey t) h hne hget, hne, ?_⟩
  intro hnc
  apply himp
  cases hb : isCompletedL st.completed t with
  | false => rfl
  | true =>
    have := pw_completed_mono w st tid t hb
    rw [hnc] at this
    exact Bool.noConfusion this

theorem pw_fail_nofx (w : World) (st : PipeState) (tid h : String)
    (hget : cacheGet st.cache (detailKey tid) = some h)
    (hne : h ≠ "") (hextr : w.extractTerms h = none) :
    pipeWorker w st tid =
      ({ st with failed := st.failed ++ [failOutcome tid "Terms file not found"],
                 pending := st.pending.filter (fun id => id != tid) }, 0) := by
  have hdfs : detailFetchStep w st.cache tid = (h, st.cache, 0) :=
    fcs_hit (w.detailHtml tid) st.cache (detailKey tid) h hget hne
  simp [pipeWorker, hdfs, hextr]

theorem pf_goodAt_mono (w : World) :
    ∀ (l : List String) (st : PipeState) (t : String),
      goodAt w st t → goodAt w (processDownloadsFold w st l).1 t := by
  intro l
  induction l with
  | nil => intro st t hg; simpa [processDownloadsFold] using hg
  | cons x l ih =>
    intro st t hg
    simp only [processDownloadsFold]
    exact ih _ _ (pw_goodAt_mono w st x t hg)

theorem pf_goodAt_all (w : World) :
    ∀ (l : List String) (st : PipeState),
      (∀ t ∈ l, w.detailHtml t ≠ "") →
      ∀ t ∈ l, goodAt w (processDownloadsFold w st l).1 t := by
  intro l
  induction l with
  | nil => intro st _ t ht; simp at ht
  | cons x l ih =>
    intro st hd t ht
    simp only [processDownloadsFold]
    rcases List.mem_cons.mp ht with rfl | ht2
    · exact pf_goodAt_mono w l _ t (pw_goodAt_self w st t (hd t (List.mem_cons_self _ _)))
    · exact ih _ (fun u hu => hd u (List.mem_cons_of_mem _ hu)) t ht2

theorem pf_completed_mono (w : World) :
    ∀ (l : List String) (st : PipeState) (t : String),
      isCompletedL st.completed t = true →
      isCompletedL (processDownloadsFold w st l).1.completed t = true := by
  intro l
  induction l with
  | nil => intro st t h; simpa [processDownloadsFold] using h
  | cons x l ih =>
    intro st t h
    simp only [processDownloadsFold]
    exact ih _ _ (pw_completed_mono w st x t h)

theorem pf_preserve (w : World) :
    ∀ (l : List String) (st : PipeState) (k v : String),
      v ≠ "" → cacheGet st.cache k = some v →
      cacheGet (processDownloadsFold w st l).1.cache k = some v := by
  intro l
  induction l with
  | nil => intro st k v hv h; simpa [processDownloadsFold] using h
  | cons x l ih =>
    intro st k v hv h
    simp only [processDownloadsFold]
    exact ih _ _ _ hv (pw_preserve w st x k v hv h)

theorem pf_noop (w : World) :
    ∀ (l : List String) (st : PipeState),
      (∀ t ∈ l, ∃ h, cacheGet st.cache (detailKey t) = some h ∧ h ≠ "" ∧
         w.extractTerms h = none) →
      (processDownloadsFold w st l).1.cache = st.cache
      ∧ (processDownloadsFold w st l).1.completed = st.completed
      ∧ (processDownloadsFold w st l).1.files = st.files
      ∧ (processDownloadsFold w st l).2 = 0 := by
  intro l
  induction l with
  | nil => intro st _; exact ⟨rfl, rfl, rfl, rfl⟩
  | cons x l ih =>
    intro st hall
    obtain ⟨h, hget, hne, hextr⟩ := hall x (List.mem_cons_self _ _)
    have hpw := pw_fail_nofx w st x h hget hne hextr
    have hc1 : (pipeWorker w st x).1.cache = st.cache := by rw [hpw]
    have hc2 : (pipeWorker w st x).1.completed = st.completed := by rw [hpw]
    have hc3 : (pipeWorker w st x).1.files = st.files := by rw [hpw]
    have hn : (pipeWorker w st x).2 = 0 := by rw [hpw]
    obtain ⟨ih1, ih2, ih3, ih4⟩ := ih (pipeWorker w st x).1
      (fun t ht => by rw [hc1]; exact hall t (List.mem_cons_of_mem _ ht))
    simp only [processDownloadsFold]
    exact ⟨by rw [ih1, hc1], by rw [ih2, hc2], by rw [ih3, hc3], by rw [hn, ih4]⟩

theorem pal_empty (w : World) (st : PipeState) (ids : List String) (lf : Nat)
    (h : ids.isEmpty = true) : pipelineAfterListing w st ids lf = (st, lf) := by
  simp [pipelineAfterListing, h]

theorem pal_nonempty (w : World) (st : PipeState) (ids : List String) (lf : Nat)
    (h : ids.isEmpty = false) :
    pipelineAfterListing w st ids lf =
      pipelineSched w
        { st with pending := ids.filter (fun id => !(isCompletedL st.completed id)) } lf := by
  simp [pipelineAfterListing, h]

theorem psched_empty (w : World) (st2 : PipeState) (lf : Nat)
    (h : st2.pending.isEmpty = true) : pipelineSched w st2 lf = (st2, lf) := by
  simp [pipelineSched, h]

theorem psched_nonempty (w : World) (st2 : PipeState) (lf : Nat)
    (h : st2.pending.isEmpty = false) :
    pipelineSched w st2 lf =
      ((processDownloadsFold w st2 st2.pending).1,
       lf + (processDownloadsFold w st2 st2.pending).2) := by
  simp [pipelineSched, h]

theorem runPipeline_cached_listing (w : World) (st : PipeState) (lhtml : String)
    (hget : cacheGet st.cache (listingKey w) = some lhtml) (hne : lhtml ≠ "") :
    runPipeline w st = pipelineAfterListing w st (w.extractIDs lhtml) 0 := by
  unfold runPipeline
  rw [fcs_hit w.listingHtml st.cache (listingKey w) lhtml hget hne]

theorem pal_post (w : World) (st1 : PipeState) (ids : List String) (lf : Nat)
    (hd : ∀ t ∈ ids, w.detailHtml t ≠ "") :
    (∀ k v, v ≠ "" → cacheGet st1.cache k = some v →
        cacheGet (pipelineAfterListing w st1 ids lf).1.cache k = some v)
    ∧ (∀ t ∈ ids, isCompletedL (pipelineAfterListing w st1 ids lf).1.completed t = true
        ∨ goodAt w (pipelineAfterListing w st1 ids lf).1 t) := by
  cases hie : ids.isEmpty with
  | true =>
    rw [pal_empty w st1 ids lf hie]
    refine ⟨fun k v _ h => h, fun t ht => ?_⟩
    rw [List.isEmpty_iff] at hie
    subst hie
    simp at ht
  | false =>
    rw [pal_nonempty w st1 ids lf hie]
    cases hpe : (ids.filter (fun id => !(isCompletedL st1.completed id))).isEmpty with
    | true =>
      rw [psched_empty w _ lf hpe]
      refine ⟨fun k v _ h => h, fun t ht => ?_⟩
      left
      cases hb : isCompletedL st1.completed t with
      | true => rfl
      | false =>
        exfalso
        rw [List.isEmpty_iff] at hpe
        have : t ∈ ids.filter (fun id => !(isCompletedL st1.completed id)) :=
          List.mem_filter.mpr ⟨ht, by rw [hb]; rfl⟩
        rw [hpe] at this
        simp at this
    | false =>
      rw [psched_nonempty w _ lf hpe]
      refine ⟨?_, ?_⟩
      · intro k v hv h
        exact pf_preserve w _ _ k v hv h
      · intro t ht
        cases hb : isCompletedL st1.completed t with
        | true =>
          left
          exact pf_completed_mono w _ _ t hb
        | false =>
          right
          refine pf_goodAt_all w _ _ ?_ t ?_
          · intro u hu
            exact hd u (List.mem_filter.mp hu).1
          · exact List.mem_filter.mpr ⟨ht, by rw [hb]; rfl⟩

/-- C1: running the pipeline twice in a row over the same date range against
an unchanged remote (a fixed World whose page bodies are nonempty) gives a
second run with the same file store, the same completedCount, and zero
network fetches: the listing is served from cache, completed ids are excluded
from pending by setPending, and every retried (previously failed) id is
re-examined from its cached detail page without any fetch. -/
theorem pipeline_idempotent_second_run (w : World) (s0 : PipeState)
    (hl : w.listingHtml ≠ "")
    (hd : ∀ h tid, tid ∈ w.extractIDs h → w.detailHtml tid ≠ "") :
    (runPipeline w (runPipeline w s0).1).1.files = (runPipeline w s0).1.files
    ∧ (runPipeline w (runPipeline w s0).1).1.completed.length
        = (runPipeline w s0).1.completed.length
    ∧ (runPipeline w (runPipeline w s0).1).2 = 0 := by
  have hrun1 : runPipeline w s0 =
      pipelineAfterListing w
        { s0 with cache := (fetchCachedStep w.listingHtml s0.cache (listingKey w)).2.1 }
        (w.extractIDs (fetchCachedStep w.listingHtml s0.cache (listingKey w)).1)
        (fetchCachedStep w.listingHtml s0.cache (listingKey w)).2.2 := rfl
  have hlne : (fetchCachedStep w.listingHtml s0.cache (listingKey w)).1 ≠ "" :=
    fcs_value_nonempty w.listingHtml s0.cache (listingKey w) hl
  have hget1 : cacheGet
      ({ s0 with cache := (fetchCachedStep w.listingHtml s0.cache (listingKey w)).2.1 } :
        PipeState).cache (listingKey w)
      = some (fetchCachedStep w.listingHtml s0.cache (listingKey w)).1 :=
    fcs_get_self w.listingHtml s0.cache (listingKey w)
  have hpost := pal_post w
    { s0 with cache := (fetchCachedStep w.listingHtml s0.cache (listingKey w)).2.1 }
    (w.extractIDs (fetchCachedStep w.listingHtml s0.cache (listingKey w)).1)
    (fetchCachedStep w.listingHtml s0.cache (listingKey w)).2.2
    (fun t ht => hd (fetchCachedStep w.listingHtml s0.cache (listingKey w)).1 t ht)
  have hgetP : cacheGet (runPipeline w s0).1.cache (listingKey w)
      = some (fetchCachedStep w.listingHtml s0.cache (listingKey w)).1 := by
    rw [hrun1]
    exact hpost.1 (listingKey w) (fetchCachedStep w.listingHtml s0.cache (listingKey w)).1
      hlne hget1
  have hrun2 : runPipeline w (runPipeline w s0).1 =
      pipelineAfterListing w (runPipeline w s0).1
        (w.extractIDs (fetchCachedStep w.listingHtml s0.cache (listingKey w)).1) 0 :=
    runPipeline_cached_listing w (runPipeline w s0).1
      (fetchCachedStep w.listingHtml s0.cache (listingKey w)).1 hgetP hlne
  rw [hrun2]
  cases hie : (w.extractIDs (fetchCachedStep w.listingHtml s0.cache (listingKey w)).1).isEmpty with
  | true =>
    rw [pal_empty w _ _ 0 hie]
    exact ⟨rfl, rfl, rfl⟩
  | false =>
    rw [pal_nonempty w _ _ 0 hie]
    have hall : ∀ t ∈ ((w.extractIDs (fetchCachedStep w.listingHtml s0.cache (listingKey w)).1).filter
        (fun id => !(isCompletedL (runPipeline w s0).1.completed id))),
        ∃ h, cacheGet (runPipeline w s0).1.cache (detailKey t) = some h ∧ h ≠ "" ∧
          w.extractTerms h = none := by
      intro t ht
      have hmem := List.mem_filter.mp ht
      have hnotc : isCompletedL (runPipeline w s0).1.completed t = false := by
        have := hmem.2
        cases hb : isCompletedL (runPipeline w s0).1.completed t with
        | false => rfl
        | true => rw [hb] at this; simp at this
      have hfact := hpost.2 t hmem.1
      rw [← hrun1] at hfact
      rcases hfact with hc | hg
      · rw [hc] at hnotc; exact Bool.noConfusion hnotc
      · obtain ⟨h, hget, hne, himp⟩ := hg
        exact ⟨h, hget, hne, himp hnotc⟩
    cases hpe : (((w.extractIDs (fetchCachedStep w.listingHtml s0.cache (listingKey w)).1).filter
        (fun id => !(isCompletedL (runPipeline w s0).1.completed id)))).isEmpty with
    | true =>
      rw [psched_empty w _ 0 ?hpe2]
      case hpe2 => exact hpe
      exact ⟨rfl, rfl, rfl⟩
    | false =>
      rw [psched_nonempty w _ 0 ?hpe2]
      case hpe2 => exact hpe
      have hno := pf_noop w
        ((w.extractIDs (fetchCachedStep w.listingHtml s0.cache (listingKey w)).1).filter
          (fun id => !(isCompletedL (runPipeline w s0).1.completed id)))
        { (runPipeline w s0).1 with
          pending := (w.extractIDs (fetchCachedStep w.listingHtml s0.cache (listingKey w)).1).filter
            (fun id => !(isCompletedL (runPipeline w s0).1.completed id)) }
        (fun t ht => hall t ht)
      exact ⟨hno.2.2.1, by rw [hno.2.1], by rw [hno.2.2.2]⟩

/-- Witness for C1: a concrete two-item world run twice from a fresh state. -/
theorem pipeline_idempotent_second_run_instance :
    (runPipeline wW (runPipeline wW sEmpty).1).1.files = (runPipeline wW sEmpty).1.files
    ∧ (runPipeline wW (runPipeline wW sEmpty).1).1.completed.length
        = (runPipeline wW sEmpty).1.completed.length
    ∧ (runPipeline wW (runPipeline wW sEmpty).1).2 = 0 :=
  pipeline_idempotent_second_run wW sEmpty (by decide)
    (fun h tid _ => by
      have hD : wW.detailHtml tid = "D" := rfl
      rw [hD]
      decide)

end SecDW
